import Mathlib

/-!
Verification of the planets N-body simulation core.

The physics state (`mass`, `position`, `velocity`) is `f64` in the source;
here it is modelled over the real numbers, the standard idealisation for the
algebraic claims.  A separate `F64` type models the IEEE-754 special values
(infinities and NaN) for the claim about the unguarded division by zero at
coincident positions.
-/

noncomputable section

namespace Planets

/-- Atomic units in meters (`const AU`). -/
def AU : ℝ := 149.6e6 * 1000

/-- Gravitational constant (`const GRAVITY`). -/
def GRAVITY : ℝ := 6.67428e-11

/-- Scale from simulation space to screen space (`const SCALE`). -/
def SCALE : ℝ := 250 / AU

/-- Seconds advanced per tick (`const TIMESTEP`), one day. -/
def TIMESTEP : ℝ := 3600 * 24

/-- Bound used by the trail guard (`const MAX_TRAIL_SIZE`). -/
def MAX_TRAIL_SIZE : ℕ := 1000

/-- Pan and zoom sensitivity (`const MOUSE_SENSITIVITY` in main.rs). -/
def MOUSE_SENSITIVITY : ℝ := 1.5

/-- The `Position` component: a 2D simulation-space position. -/
@[ext]
structure Position where
  x : ℝ
  y : ℝ

/-- The `Velocity` component: a 2D simulation-space velocity. -/
structure Velocity where
  x : ℝ
  y : ℝ

/-- One simulated body, the (Position, Velocity, Mass) components that
`apply_gravity` queries for an entity.  The `Mass(f64)` newtype is flattened
to a real field. -/
structure Body where
  mass : ℝ
  position : Position
  velocity : Velocity

/-- Rust's `f64::atan2`: `y.atan2(x)` is the argument of the point `(x, y)`,
modelled by the principal argument of the complex number `x + y i`. -/
def atan2 (y x : ℝ) : ℝ := Complex.arg ⟨x, y⟩

/-- `calculate_force` from planets/mod.rs: the gravitational force exerted on
the body at `position` (mass `mass`) by the body at `other_position`
(mass `other_mass`), as `(force_x, force_y)`. -/
def calculate_force (position : Position) (mass : ℝ)
    (other_position : Position) (other_mass : ℝ) : ℝ × ℝ :=
  let distance_x := other_position.x - position.x
  let distance_y := other_position.y - position.y
  let total_distance := Real.sqrt (distance_x ^ 2 + distance_y ^ 2)
  let force := GRAVITY * mass * other_mass / total_distance ^ 2
  let theta := atan2 distance_y distance_x
  (Real.cos theta * force, Real.sin theta * force)

/-- `apply_gravity` from planets/mod.rs.  The Bevy query is modelled as a
list of bodies iterated in a fixed order; the entity id of a body is its
index, produced by `enum`.  First pass: fold over all other bodies
accumulating the force on each body and store the resulting new velocity in
`velocity_store`.  Second pass: write the stored velocity back and advance
the position by it. -/
def apply_gravity (bodies : List Body) : List Body :=
  let enumd := bodies.enum
  let velocity_store : List (ℝ × ℝ) := enumd.map (fun eb =>
    let totals := enumd.foldl (fun acc other =>
      if eb.1 ≠ other.1 then
        let f := calculate_force eb.2.position eb.2.mass other.2.position other.2.mass
        (acc.1 + f.1, acc.2 + f.2)
      else acc) (0, 0)
    (eb.2.velocity.x + totals.1 / eb.2.mass * TIMESTEP,
     eb.2.velocity.y + totals.2 / eb.2.mass * TIMESTEP))
  (bodies.zip velocity_store).map (fun bv =>
    { mass := bv.1.mass
      velocity := ⟨bv.2.1, bv.2.2⟩
      position := ⟨bv.1.position.x + bv.2.1 * TIMESTEP,
                   bv.1.position.y + bv.2.2 * TIMESTEP⟩ })

/-- The screen-space point a `Position` is converted to inside
`add_position` (the `f64`-to-`f32` cast is the identity in the real model). -/
def screen_vec (p : Position) : ℝ × ℝ := (p.x * SCALE, p.y * SCALE)

/-- The `PlanetTrail` component: past screen-space positions, oldest first. -/
structure PlanetTrail where
  positions : List (ℝ × ℝ)

/-- `PlanetTrail::default`: an empty trail. -/
def PlanetTrail.default : PlanetTrail := ⟨[]⟩

/-- `PlanetTrail::add_position`: if the trail is longer than
`MAX_TRAIL_SIZE`, remove the front entry, then push the scaled position at
the back.  (The source's debug print has no effect on the state.) -/
def PlanetTrail.add_position (t : PlanetTrail) (position : Position) : PlanetTrail :=
  let base := if MAX_TRAIL_SIZE < t.positions.length then t.positions.tail else t.positions
  let x := position.x * SCALE
  let y := position.y * SCALE
  ⟨base ++ [(x, y)]⟩

/-- The trail obtained by appending the positions `ps` in order to a fresh
(empty) trail, one `add_position` call each. -/
def trail_after (ps : List Position) : PlanetTrail :=
  ps.foldl PlanetTrail.add_position PlanetTrail.default

/-- `SpaceObjectBundle`: the spawn-time bundle of components for one body.
The render-facing `material2d` handle belongs to the excluded rendering
collaborator and carries no simulation state, so it is omitted. -/
structure SpaceObjectBundle where
  mass : ℝ
  velocity : Velocity
  position : Position
  trail : PlanetTrail

/-- `SpaceObjectBundle::new`: builds a local list holding the initial
position, then discards it and installs `PlanetTrail::default` as the
trail. -/
def SpaceObjectBundle.new (mass : ℝ) (velocity : Velocity) (position : Position) :
    SpaceObjectBundle :=
  let positions : List Position := [position]
  { mass := mass, velocity := velocity, position := position,
    trail := PlanetTrail.default }

/-- `MouseScrollUnit`: line- or pixel-precision scroll events. -/
inductive MouseScrollUnit where
  | line : MouseScrollUnit
  | pixel : MouseScrollUnit

/-- A `MouseWheel` scroll event: its unit and vertical delta. -/
structure MouseWheel where
  unit : MouseScrollUnit
  y : ℝ

/-- The body of `zoom_control`'s per-event match: line events at delta `-1`
multiply the projection scale by `MOUSE_SENSITIVITY` and at `+1` divide by
it; pixel events use `1.25`; any other delta leaves the scale unchanged. -/
def zoom_step (scale : ℝ) (ev : MouseWheel) : ℝ :=
  match ev.unit with
  | MouseScrollUnit.line =>
      if ev.y = -1 then scale * MOUSE_SENSITIVITY
      else if ev.y = 1 then scale / MOUSE_SENSITIVITY
      else scale
  | MouseScrollUnit.pixel =>
      if ev.y = -1 then scale * 1.25
      else if ev.y = 1 then scale / 1.25
      else scale

/-- `zoom_control` from camera/mod.rs: process the frame's scroll events in
arrival order, starting from the current projection scale. -/
def zoom_control (scale : ℝ) (events : List MouseWheel) : ℝ :=
  events.foldl zoom_step scale

/-- A `MouseMotion` event: the pointer's movement delta. -/
structure MouseMotion where
  x : ℝ
  y : ℝ

/-- The right-mouse-button state `handle_camera_pan` reads: whether the
button is pressed, and whether this frame is the one that registered the
press. -/
structure ButtonInput where
  pressed : Bool
  justPressed : Bool

/-- The body of `handle_camera_pan`'s per-event loop: while the pan button
is held and was not just pressed, move the camera translation against the
pointer delta, scaled by `MOUSE_SENSITIVITY`. -/
def pan_step (input : ButtonInput) (t : ℝ × ℝ) (md : MouseMotion) : ℝ × ℝ :=
  if input.pressed && !input.justPressed then
    (t.1 - md.x * MOUSE_SENSITIVITY, t.2 + md.y * MOUSE_SENSITIVITY)
  else t

/-- `handle_camera_pan` from camera/mod.rs: process the frame's motion
events in arrival order against the camera translation.  The button state
is a resource fixed for the duration of the loop. -/
def handle_camera_pan (input : ButtonInput) (t : ℝ × ℝ)
    (events : List MouseMotion) : ℝ × ℝ :=
  events.foldl (pan_step input) t

/-- The multiplier `zoom_control` applies for a given scroll unit: the
shared sensitivity for line events, the fixed `1.25` for pixel events. -/
def unit_multiplier : MouseScrollUnit → ℝ
  | MouseScrollUnit.line => MOUSE_SENSITIVITY
  | MouseScrollUnit.pixel => 1.25

/-- Placeholder body for total indexing of the registry with `getD`; every
use is guarded by an in-bounds hypothesis. -/
def dummyBody : Body := ⟨0, ⟨0, 0⟩, ⟨0, 0⟩⟩

/-- The pairwise force `calculate_force` computes on body `i` from body `j`,
both named by their index in the registry. -/
def force_between (bodies : List Body) (i j : ℕ) : ℝ × ℝ :=
  calculate_force (bodies.getD i dummyBody).position (bodies.getD i dummyBody).mass
    (bodies.getD j dummyBody).position (bodies.getD j dummyBody).mass

/-- The accumulated force of `apply_gravity`'s first pass on body `i`: the
sum of the pairwise forces from every other body, taken at the positions the
bodies had at the start of the call. -/
def total_force (bodies : List Body) (i : ℕ) : ℝ × ℝ :=
  (∑ j ∈ (Finset.range bodies.length).erase i, (force_between bodies i j).1,
   ∑ j ∈ (Finset.range bodies.length).erase i, (force_between bodies i j).2)

/-- The velocity `apply_gravity` stores for body `i`: the old velocity plus
the accumulated force divided by the body's mass, times `TIMESTEP`. -/
def new_velocity (bodies : List Body) (i : ℕ) : ℝ × ℝ :=
  ((bodies.getD i dummyBody).velocity.x
     + (total_force bodies i).1 / (bodies.getD i dummyBody).mass * TIMESTEP,
   (bodies.getD i dummyBody).velocity.y
     + (total_force bodies i).2 / (bodies.getD i dummyBody).mass * TIMESTEP)

/-- Total momentum of the system, per component: the sum over all bodies of
mass times velocity. -/
def total_momentum (bodies : List Body) : ℝ × ℝ :=
  ((bodies.map fun b => b.mass * b.velocity.x).sum,
   (bodies.map fun b => b.mass * b.velocity.y).sum)

/-- A model of `f64` keeping the IEEE-754 special values explicit: a finite
value (held exactly as a real number, abstracting from rounding), the two
infinities, and NaN.  Only the special-value behaviour matters for the
division-by-zero claim; finite-finite arithmetic is exact. -/
inductive F64 where
  | finite : ℝ → F64
  | inf : F64
  | neginf : F64
  | nan : F64

/-- Whether an `F64` is a finite value (not an infinity and not NaN). -/
def F64.isFinite : F64 → Bool
  | .finite _ => true
  | _ => false

/-- IEEE-754 addition on the `F64` model. -/
def F64.add : F64 → F64 → F64
  | .nan, _ => .nan
  | _, .nan => .nan
  | .finite a, .finite b => .finite (a + b)
  | .inf, .neginf => .nan
  | .inf, _ => .inf
  | .neginf, .inf => .nan
  | .neginf, _ => .neginf
  | .finite _, .inf => .inf
  | .finite _, .neginf => .neginf

/-- IEEE-754 subtraction on the `F64` model. -/
def F64.sub : F64 → F64 → F64
  | .nan, _ => .nan
  | _, .nan => .nan
  | .finite a, .finite b => .finite (a - b)
  | .inf, .inf => .nan
  | .inf, _ => .inf
  | .neginf, .neginf => .nan
  | .neginf, _ => .neginf
  | .finite _, .inf => .neginf
  | .finite _, .neginf => .inf

/-- IEEE-754 multiplication on the `F64` model: an infinity times zero is
NaN, an infinity times a nonzero finite value keeps the product's sign. -/
def F64.mul : F64 → F64 → F64
  | .nan, _ => .nan
  | _, .nan => .nan
  | .finite a, .finite b => .finite (a * b)
  | .finite a, .inf => if 0 < a then .inf else if a < 0 then .neginf else .nan
  | .finite a, .neginf => if 0 < a then .neginf else if a < 0 then .inf else .nan
  | .inf, .finite b => if 0 < b then .inf else if b < 0 then .neginf else .nan
  | .neginf, .finite b => if 0 < b then .neginf else if b < 0 then .inf else .nan
  | .inf, .inf => .inf
  | .inf, .neginf => .neginf
  | .neginf, .inf => .neginf
  | .neginf, .neginf => .inf

/-- IEEE-754 division on the `F64` model: a nonzero finite value divided by
zero is a signed infinity (the model's sole zero is `+0`), zero divided by
zero is NaN, infinity divided by infinity is NaN. -/
def F64.div : F64 → F64 → F64
  | .nan, _ => .nan
  | _, .nan => .nan
  | .finite a, .finite b =>
      if b = 0 then (if 0 < a then .inf else if a < 0 then .neginf else .nan)
      else .finite (a / b)
  | .finite _, .inf => .finite 0
  | .finite _, .neginf => .finite 0
  | .inf, .finite b => if 0 ≤ b then .inf else .neginf
  | .neginf, .finite b => if 0 ≤ b then .neginf else .inf
  | .inf, _ => .nan
  | .neginf, _ => .nan

/-- IEEE-754 square root on the `F64` model: NaN on negative inputs. -/
def F64.sqrt : F64 → F64
  | .nan => .nan
  | .neginf => .nan
  | .inf => .inf
  | .finite a => if a < 0 then .nan else .finite (Real.sqrt a)

/-- Rust's `.powi(2)`: squaring, which on the model agrees with
self-multiplication (also on the special values). -/
def F64.powi2 (x : F64) : F64 := x.mul x

/-- IEEE-754 cosine on the `F64` model: NaN on infinities and NaN. -/
def F64.cos : F64 → F64
  | .finite a => .finite (Real.cos a)
  | _ => .nan

/-- IEEE-754 sine on the `F64` model: NaN on infinities and NaN. -/
def F64.sin : F64 → F64
  | .finite a => .finite (Real.sin a)
  | _ => .nan

/-- Rust's `f64::atan2` on the `F64` model, `y.atan2 x`; in particular
`atan2(+0, +0) = +0`, and infinite arguments give the IEEE quadrant
angles. -/
def F64.atan2 : F64 → F64 → F64
  | .nan, _ => .nan
  | _, .nan => .nan
  | .finite y, .finite x => .finite (Planets.atan2 y x)
  | .finite _, .inf => .finite 0
  | .finite y, .neginf => .finite (if 0 ≤ y then Real.pi else -Real.pi)
  | .inf, .finite _ => .finite (Real.pi / 2)
  | .neginf, .finite _ => .finite (-(Real.pi / 2))
  | .inf, .inf => .finite (Real.pi / 4)
  | .inf, .neginf => .finite (3 * Real.pi / 4)
  | .neginf, .inf => .finite (-(Real.pi / 4))
  | .neginf, .neginf => .finite (-(3 * Real.pi / 4))

/-- A `Position` over the `F64` model. -/
structure PositionFP where
  x : F64
  y : F64

/-- A `Velocity` over the `F64` model. -/
structure VelocityFP where
  x : F64
  y : F64

/-- A body over the `F64` model. -/
structure BodyFP where
  mass : F64
  position : PositionFP
  velocity : VelocityFP

/-- `calculate_force` over the `F64` model, operation for operation the
same expression as the source. -/
def calculate_force_fp (position : PositionFP) (mass : F64)
    (other_position : PositionFP) (other_mass : F64) : F64 × F64 :=
  let distance_x := other_position.x.sub position.x
  let distance_y := other_position.y.sub position.y
  let total_distance := (distance_x.powi2.add distance_y.powi2).sqrt
  let force := (((F64.finite GRAVITY).mul mass).mul other_mass).div total_distance.powi2
  let theta := distance_y.atan2 distance_x
  (theta.cos.mul force, theta.sin.mul force)

/-- `apply_gravity` over the `F64` model, with the same two-pass list
structure as `apply_gravity`. -/
def apply_gravity_fp (bodies : List BodyFP) : List BodyFP :=
  let enumd := bodies.enum
  let velocity_store : List (F64 × F64) := enumd.map (fun eb =>
    let totals := enumd.foldl (fun acc other =>
      if eb.1 ≠ other.1 then
        let f := calculate_force_fp eb.2.position eb.2.mass other.2.position other.2.mass
        (acc.1.add f.1, acc.2.add f.2)
      else acc) (F64.finite 0, F64.finite 0)
    (eb.2.velocity.x.add ((totals.1.div eb.2.mass).mul (F64.finite TIMESTEP)),
     eb.2.velocity.y.add ((totals.2.div eb.2.mass).mul (F64.finite TIMESTEP))))
  (bodies.zip velocity_store).map (fun bv =>
    { mass := bv.1.mass
      velocity := ⟨bv.2.1, bv.2.2⟩
      position := ⟨bv.1.position.x.add (bv.2.1.mul (F64.finite TIMESTEP)),
                   bv.1.position.y.add (bv.2.2.mul (F64.finite TIMESTEP))⟩ })

theorem trail_after_append (ps : List Position) (p : Position) :
    trail_after (ps ++ [p]) = (trail_after ps).add_position p := by
  simp [trail_after, List.foldl_append]

theorem trail_after_positions (ps : List Position) :
    (trail_after ps).positions =
      (ps.drop (ps.length - (MAX_TRAIL_SIZE + 1))).map screen_vec := by
  induction ps using List.reverseRecOn with
  | nil => simp [trail_after, PlanetTrail.default]
  | append_singleton ps p ih =>
    rw [trail_after_append, PlanetTrail.add_position]
    by_cases h : MAX_TRAIL_SIZE + 1 ≤ ps.length
    · have hlen : ((trail_after ps).positions).length = MAX_TRAIL_SIZE + 1 := by
        rw [ih, List.length_map, List.length_drop]
        omega
      rw [if_pos (by rw [hlen]; omega), ih, ← List.map_tail, List.tail_drop]
      have h1 : ps.length - (MAX_TRAIL_SIZE + 1) + 1 =
          ps.length + 1 - (MAX_TRAIL_SIZE + 1) := by omega
      have h2 : (ps ++ [p]).length - (MAX_TRAIL_SIZE + 1) =
          ps.length + 1 - (MAX_TRAIL_SIZE + 1) := by
        rw [List.length_append]; rfl
      rw [h1, h2, List.drop_append_of_le_length (by omega), List.map_append]
      rfl
    · have hlen : ((trail_after ps).positions).length = ps.length := by
        rw [ih, List.length_map, List.length_drop]
        omega
      rw [if_neg (by rw [hlen]; omega), ih]
      have h1 : ps.length - (MAX_TRAIL_SIZE + 1) = 0 := by omega
      have h2 : (ps ++ [p]).length - (MAX_TRAIL_SIZE + 1) = 0 := by
        simp only [List.length_append, List.length_cons, List.length_nil]
        omega
      rw [h1, h2, List.drop_zero, List.drop_zero, List.map_append]
      rfl

theorem trail_after_length (ps : List Position) :
    (trail_after ps).positions.length = min ps.length (MAX_TRAIL_SIZE + 1) := by
  rw [trail_after_positions, List.length_map, List.length_drop]
  omega

/-- C2 counterexample: appending `MAX_TRAIL_SIZE + 1` positions to a fresh
trail leaves it `MAX_TRAIL_SIZE + 1` entries long, exceeding
`MAX_TRAIL_SIZE` — the guard in `add_position` uses a strict comparison, so
eviction only starts once the length has already passed the bound. -/
theorem trail_length_exceeds_max :
    MAX_TRAIL_SIZE <
      (trail_after (List.replicate (MAX_TRAIL_SIZE + 1) (Position.mk 0 0))).positions.length := by
  rw [trail_after_length, List.length_replicate]
  simp [MAX_TRAIL_SIZE]

/-- C2 (amended): for every sequence of `add_position` calls starting from
the empty trail, after each call the trail's length never exceeds
`MAX_TRAIL_SIZE + 1` (= 1001); the buffer stabilises one entry above the
named bound. -/
theorem trail_length_le_max_succ (ps : List Position) :
    (trail_after ps).positions.length ≤ MAX_TRAIL_SIZE + 1 := by
  rw [trail_after_length]
  omega

/-- C3: after `n` calls to `add_position` with `n > MAX_TRAIL_SIZE`, the
oldest retained entry (the trail's front) is the `(n - MAX_TRAIL_SIZE)`-th
appended position (1-indexed, hence index `n - MAX_TRAIL_SIZE - 1`):
eviction is strict FIFO, oldest first. -/
theorem trail_oldest_is_fifo (ps : List Position)
    (h : MAX_TRAIL_SIZE < ps.length) :
    (trail_after ps).positions.head? =
      (ps[ps.length - (MAX_TRAIL_SIZE + 1)]?).map screen_vec := by
  rw [trail_after_positions, List.head?_map, List.head?_drop]

theorem trail_oldest_is_fifo_witness :
    MAX_TRAIL_SIZE < (List.replicate (MAX_TRAIL_SIZE + 1) (Position.mk 0 0)).length ∧
    (trail_after (List.replicate (MAX_TRAIL_SIZE + 1) (Position.mk 0 0))).positions.head? =
      ((List.replicate (MAX_TRAIL_SIZE + 1)
          (Position.mk 0 0))[(List.replicate (MAX_TRAIL_SIZE + 1)
            (Position.mk 0 0)).length - (MAX_TRAIL_SIZE + 1)]?).map screen_vec :=
  ⟨by rw [List.length_replicate]; omega,
   trail_oldest_is_fifo _ (by rw [List.length_replicate]; omega)⟩

/-- C10: a freshly constructed bundle's trail is empty — the local list the
constructor builds around the spawn position is discarded — and the first
entry ever recorded is the screen-space image of whatever position the
first `add_position` call receives (after the first tick's update), not the
spawn position. -/
theorem bundle_trail_starts_empty (m : ℝ) (v : Velocity) (p q : Position) :
    (SpaceObjectBundle.new m v p).trail.positions = [] ∧
    ((SpaceObjectBundle.new m v p).trail.add_position q).positions = [screen_vec q] := by
  constructor
  · rfl
  · simp [SpaceObjectBundle.new, PlanetTrail.add_position, PlanetTrail.default, screen_vec]

/-- C7: each scroll event moves the zoom scale by the unit's multiplier:
delta `-1` multiplies by it (`MOUSE_SENSITIVITY` = 1.5 for line events,
`1.25` for pixel events), delta `+1` divides by it, and any other delta
leaves the scale unchanged; the remaining events are then processed from
the resulting scale. -/
theorem zoom_control_event_cases (s : ℝ) (ev : MouseWheel) (rest : List MouseWheel) :
    zoom_control s (ev :: rest) =
      zoom_control
        (if ev.y = -1 then s * unit_multiplier ev.unit
         else if ev.y = 1 then s / unit_multiplier ev.unit
         else s) rest := by
  cases ev with
  | mk u y => cases u <;> simp [zoom_control, zoom_step, unit_multiplier]

/-- C8: a scroll-up notch (delta `+1`) followed by a scroll-down notch
(delta `-1`) of the same unit mode returns the zoom scale exactly to its
starting value, since the two steps divide and then multiply by the same
nonzero multiplier. -/
theorem zoom_up_down_round_trip (s : ℝ) (u : MouseScrollUnit) :
    zoom_control s [MouseWheel.mk u 1, MouseWheel.mk u (-1)] = s := by
  cases u <;>
    simp only [zoom_control, List.foldl, zoom_step] <;>
    norm_num [MOUSE_SENSITIVITY]

theorem pan_replicate (N : ℕ) (d : MouseMotion) (t : ℝ × ℝ) :
    handle_camera_pan (ButtonInput.mk true false) t (List.replicate N d) =
      (t.1 + N * (-d.x * MOUSE_SENSITIVITY), t.2 + N * (d.y * MOUSE_SENSITIVITY)) := by
  induction N generalizing t with
  | zero => simp [handle_camera_pan]
  | succ n ih =>
    rw [List.replicate_succ]
    show handle_camera_pan (ButtonInput.mk true false)
        (pan_step (ButtonInput.mk true false) t d) (List.replicate n d) = _
    rw [ih]
    simp only [pan_step, Bool.and_self, if_pos, Bool.not_false, Bool.and_true]
    refine Prod.ext ?_ ?_ <;> simp <;> push_cast <;> ring

theorem pan_just_pressed_fixed (t : ℝ × ℝ) (evs : List MouseMotion) :
    handle_camera_pan (ButtonInput.mk true true) t evs = t := by
  induction evs generalizing t with
  | nil => rfl
  | cons e rest ih =>
    show handle_camera_pan _ (pan_step _ t e) rest = t
    rw [show pan_step (ButtonInput.mk true true) t e = t by simp [pan_step], ih]

/-- C9: N consecutive motion events of the same delta while the pan button
is held (and not just pressed) shift the camera translation by exactly
`N * (-dx * MOUSE_SENSITIVITY)` in x and `N * (dy * MOUSE_SENSITIVITY)` in
y; on the frame that first registers the press, motion events leave the
translation unchanged. -/
theorem pan_accumulates (N : ℕ) (d : MouseMotion) (t : ℝ × ℝ) (evs : List MouseMotion) :
    handle_camera_pan (ButtonInput.mk true false) t (List.replicate N d) =
      (t.1 + N * (-d.x * MOUSE_SENSITIVITY), t.2 + N * (d.y * MOUSE_SENSITIVITY)) ∧
    handle_camera_pan (ButtonInput.mk true true) t evs = t :=
  ⟨pan_replicate N d t, pan_just_pressed_fixed t evs⟩

theorem getD_map_of_lt {α β : Type} (f : α → β) (l : List α) (i : ℕ) (d : β) (d' : α)
    (hi : i < l.length) : (l.map f).getD i d = f (l.getD i d') := by
  induction l generalizing i with
  | nil => simp at hi
  | cons x xs ih =>
    cases i with
    | zero => rfl
    | succ n =>
      simp only [List.map_cons, List.getD_cons_succ]
      exact ih n (by simp only [List.length_cons] at hi; omega)

theorem getD_zip_of_lt {α β : Type} (l : List α) (v : List β) (i : ℕ) (d : α) (d' : β)
    (hl : i < l.length) (hv : i < v.length) :
    (l.zip v).getD i (d, d') = (l.getD i d, v.getD i d') := by
  induction l generalizing v i with
  | nil => simp at hl
  | cons x xs ih =>
    cases v with
    | nil => simp at hv
    | cons w ws =>
      cases i with
      | zero => rfl
      | succ n =>
        simp only [List.zip_cons_cons, List.getD_cons_succ]
        exact ih ws n (by simp only [List.length_cons] at hl; omega)
          (by simp only [List.length_cons] at hv; omega)

theorem enumFrom_getD (l : List Body) (k i : ℕ) (d : ℕ × Body) (hi : i < l.length) :
    (l.enumFrom k).getD i d = (k + i, l.getD i dummyBody) := by
  induction l generalizing k i with
  | nil => simp at hi
  | cons x xs ih =>
    cases i with
    | zero => simp
    | succ n =>
      simp only [List.enumFrom_cons, List.getD_cons_succ]
      rw [ih (k + 1) n (by simp only [List.length_cons] at hi; omega)]
      have h1 : k + 1 + n = k + (n + 1) := by omega
      rw [h1]

theorem enum_getD (l : List Body) (i : ℕ) (d : ℕ × Body) (hi : i < l.length) :
    l.enum.getD i d = (i, l.getD i dummyBody) := by
  have h := enumFrom_getD l 0 i d hi
  simpa [List.enum] using h

theorem force_foldl_eq (i : ℕ) (b : Body) (l : List (ℕ × Body)) (a : ℝ × ℝ) :
    (l.foldl (fun acc other =>
        if i ≠ other.1 then
          (acc.1 + (calculate_force b.position b.mass other.2.position other.2.mass).1,
           acc.2 + (calculate_force b.position b.mass other.2.position other.2.mass).2)
        else acc) a)
      = (a.1 + ((l.map fun other =>
            if i ≠ other.1 then
              (calculate_force b.position b.mass other.2.position other.2.mass).1
            else 0)).sum,
         a.2 + ((l.map fun other =>
            if i ≠ other.1 then
              (calculate_force b.position b.mass other.2.position other.2.mass).2
            else 0)).sum) := by
  induction l generalizing a with
  | nil => simp
  | cons x xs ih =>
    rw [List.foldl_cons, ih]
    by_cases h : i ≠ x.1
    · simp only [List.map_cons, List.sum_cons, if_pos h]
      exact Prod.ext (by ring) (by ring)
    · simp only [List.map_cons, List.sum_cons, if_neg h]
      exact Prod.ext (by ring) (by ring)

theorem enumFrom_map_sum (g : ℕ × Body → ℝ) (l : List Body) (k : ℕ) :
    ((l.enumFrom k).map g).sum
      = ∑ j ∈ Finset.range l.length, g (k + j, l.getD j dummyBody) := by
  induction l generalizing k with
  | nil => simp
  | cons b bs ih =>
    simp only [List.enumFrom_cons, List.map_cons, List.sum_cons, List.length_cons]
    rw [Finset.sum_range_succ', ih (k + 1)]
    have es : ∀ j, g (k + 1 + j, bs.getD j dummyBody)
        = g (k + (j + 1), (b :: bs).getD (j + 1) dummyBody) := by
      intro j
      have h1 : k + 1 + j = k + (j + 1) := by omega
      rw [h1, List.getD_cons_succ]
    rw [Finset.sum_congr rfl fun j _ => es j]
    simp only [List.getD_cons_zero, Nat.add_zero]
    ring

theorem enum_map_sum (g : ℕ × Body → ℝ) (l : List Body) :
    (l.enum.map g).sum = ∑ j ∈ Finset.range l.length, g (j, l.getD j dummyBody) := by
  have h := enumFrom_map_sum g l 0
  simpa [List.enum] using h

theorem map_sum_getD {α : Type} (l : List α) (d : α) (f : α → ℝ) :
    (l.map f).sum = ∑ j ∈ Finset.range l.length, f (l.getD j d) := by
  induction l with
  | nil => simp
  | cons x xs ih =>
    simp only [List.map_cons, List.sum_cons, List.length_cons]
    rw [Finset.sum_range_succ', ih]
    simp only [List.getD_cons_succ, List.getD_cons_zero]
    ring

theorem apply_gravity_length (bodies : List Body) :
    (apply_gravity bodies).length = bodies.length := by
  simp [apply_gravity, List.enum]

theorem apply_gravity_getD (bodies : List Body) (i : ℕ) (hi : i < bodies.length) :
    (apply_gravity bodies).getD i dummyBody =
      { mass := (bodies.getD i dummyBody).mass
        position := ⟨(bodies.getD i dummyBody).position.x + (new_velocity bodies i).1 * TIMESTEP,
                     (bodies.getD i dummyBody).position.y + (new_velocity bodies i).2 * TIMESTEP⟩
        velocity := ⟨(new_velocity bodies i).1, (new_velocity bodies i).2⟩ } := by
  have hlen_enum : bodies.enum.length = bodies.length := by simp [List.enum]
  have hlen_vs : ∀ g : ℕ × Body → ℝ × ℝ, (bodies.enum.map g).length = bodies.length := by
    intro g; simp [List.enum]
  simp only [apply_gravity]
  rw [getD_map_of_lt _ _ i dummyBody (dummyBody, ((0 : ℝ), (0 : ℝ)))
    (by simp only [List.length_zip, List.length_map, hlen_enum]; omega)]
  rw [getD_zip_of_lt bodies _ i dummyBody ((0 : ℝ), (0 : ℝ)) hi
    (by simp only [List.length_map, hlen_enum]; omega)]
  rw [getD_map_of_lt _ bodies.enum i ((0 : ℝ), (0 : ℝ)) (0, dummyBody)
    (by omega : i < bodies.enum.length)]
  rw [enum_getD bodies i (0, dummyBody) hi]
  simp only
  rw [force_foldl_eq i (bodies.getD i dummyBody) bodies.enum (0, 0)]
  simp only [zero_add]
  rw [enum_map_sum, enum_map_sum]
  have hset : ∀ G : ℕ → ℝ,
      (∑ j ∈ Finset.range bodies.length, if i ≠ j then G j else 0)
        = ∑ j ∈ (Finset.range bodies.length).erase i, G j := by
    intro G
    rw [← Finset.sum_filter, Finset.filter_ne]
  rw [hset fun j => (calculate_force (bodies.getD i dummyBody).position
        (bodies.getD i dummyBody).mass (bodies.getD j dummyBody).position
        (bodies.getD j dummyBody).mass).1,
      hset fun j => (calculate_force (bodies.getD i dummyBody).position
        (bodies.getD i dummyBody).mass (bodies.getD j dummyBody).position
        (bodies.getD j dummyBody).mass).2]
  simp only [new_velocity, total_force, force_between]

theorem sum_erase_antisymm (n : ℕ) (F : ℕ → ℕ → ℝ)
    (hF : ∀ i j, i < n → j < n → i ≠ j → F i j = -F j i) :
    ∑ i ∈ Finset.range n, ∑ j ∈ (Finset.range n).erase i, F i j = 0 := by
  have hswap : (∑ i ∈ Finset.range n, ∑ j ∈ (Finset.range n).erase i, F i j)
      = ∑ j ∈ Finset.range n, ∑ i ∈ (Finset.range n).erase j, F i j := by
    apply Finset.sum_comm'
    intro x y
    simp only [Finset.mem_range, Finset.mem_erase]
    tauto
  have hneg : (∑ j ∈ Finset.range n, ∑ i ∈ (Finset.range n).erase j, F i j)
      = -(∑ j ∈ Finset.range n, ∑ i ∈ (Finset.range n).erase j, F j i) := by
    rw [← Finset.sum_neg_distrib]
    apply Finset.sum_congr rfl
    intro j hj
    rw [← Finset.sum_neg_distrib]
    apply Finset.sum_congr rfl
    intro i hi
    rw [Finset.mem_range] at hj
    rw [Finset.mem_erase, Finset.mem_range] at hi
    exact hF i j hi.2 hj hi.1
  have hself := hswap.trans hneg
  linarith

theorem calculate_force_antisymm (p q : Position) (mp mq : ℝ) (h : p ≠ q) :
    (calculate_force p mp q mq).1 = -(calculate_force q mq p mp).1 ∧
    (calculate_force p mp q mq).2 = -(calculate_force q mq p mp).2 := by
  have hz : ((⟨q.x - p.x, q.y - p.y⟩ : ℂ)) ≠ 0 := by
    intro h0
    apply h
    have hre := congrArg Complex.re h0
    have him := congrArg Complex.im h0
    simp only [Complex.zero_re, Complex.zero_im] at hre him
    have hx : p.x = q.x := by
      have : q.x - p.x = 0 := hre
      linarith
    have hy : p.y = q.y := by
      have : q.y - p.y = 0 := him
      linarith
    exact Position.ext hx hy
  have hz' : ((⟨p.x - q.x, p.y - q.y⟩ : ℂ)) = -(⟨q.x - p.x, q.y - p.y⟩ : ℂ) := by
    apply Complex.ext <;> simp
  have habs : Complex.abs (⟨p.x - q.x, p.y - q.y⟩ : ℂ)
      = Complex.abs (⟨q.x - p.x, q.y - p.y⟩ : ℂ) := by
    rw [hz', Complex.abs.map_neg]
  have hsq : (p.x - q.x) ^ 2 + (p.y - q.y) ^ 2 = (q.x - p.x) ^ 2 + (q.y - p.y) ^ 2 := by
    ring
  have hcos : Real.cos (atan2 (q.y - p.y) (q.x - p.x))
      = (q.x - p.x) / Complex.abs (⟨q.x - p.x, q.y - p.y⟩ : ℂ) :=
    Complex.cos_arg hz
  have hcos' : Real.cos (atan2 (p.y - q.y) (p.x - q.x))
      = -((q.x - p.x) / Complex.abs (⟨q.x - p.x, q.y - p.y⟩ : ℂ)) := by
    have := Complex.cos_arg (hz' ▸ neg_ne_zero.mpr hz :
      ((⟨p.x - q.x, p.y - q.y⟩ : ℂ)) ≠ 0)
    rw [atan2, this, habs]
    show (p.x - q.x) / _ = _
    ring
  have hsin : Real.sin (atan2 (q.y - p.y) (q.x - p.x))
      = (q.y - p.y) / Complex.abs (⟨q.x - p.x, q.y - p.y⟩ : ℂ) :=
    Complex.sin_arg _
  have hsin' : Real.sin (atan2 (p.y - q.y) (p.x - q.x))
      = -((q.y - p.y) / Complex.abs (⟨q.x - p.x, q.y - p.y⟩ : ℂ)) := by
    have := Complex.sin_arg (⟨p.x - q.x, p.y - q.y⟩ : ℂ)
    rw [atan2, this, habs]
    show (p.y - q.y) / _ = _
    ring
  constructor
  · simp only [calculate_force, atan2] at hcos hcos' ⊢
    rw [hcos, hcos', hsq]
    ring
  · simp only [calculate_force, atan2] at hsin hsin' ⊢
    rw [hsin, hsin', hsq]
    ring

theorem total_force_sum_zero (bodies : List Body)
    (hpos : ∀ i j, i < bodies.length → j < bodies.length → i ≠ j →
      (bodies.getD i dummyBody).position ≠ (bodies.getD j dummyBody).position) :
    (∑ i ∈ Finset.range bodies.length, (total_force bodies i).1) = 0 ∧
    (∑ i ∈ Finset.range bodies.length, (total_force bodies i).2) = 0 := by
  constructor
  · simp only [total_force]
    apply sum_erase_antisymm
    intro i j hi hj hij
    simp only [force_between]
    exact (calculate_force_antisymm _ _ _ _ (hpos i j hi hj hij)).1
  · simp only [total_force]
    apply sum_erase_antisymm
    intro i j hi hj hij
    simp only [force_between]
    exact (calculate_force_antisymm _ _ _ _ (hpos i j hi hj hij)).2

/-- C4: for distinct bodies at non-coincident positions, the force
`calculate_force` computes for one with respect to the other is the exact
componentwise negation of the force computed the other way round. -/
theorem force_symmetry (p q : Position) (mp mq : ℝ) (h : p ≠ q) :
    (calculate_force p mp q mq).1 = -(calculate_force q mq p mp).1 ∧
    (calculate_force p mp q mq).2 = -(calculate_force q mq p mp).2 :=
  calculate_force_antisymm p q mp mq h

theorem force_symmetry_witness :
    (Position.mk 0 0 ≠ Position.mk 1 0) ∧
    ((calculate_force (Position.mk 0 0) 1 (Position.mk 1 0) 1).1
        = -(calculate_force (Position.mk 1 0) 1 (Position.mk 0 0) 1).1 ∧
     (calculate_force (Position.mk 0 0) 1 (Position.mk 1 0) 1).2
        = -(calculate_force (Position.mk 1 0) 1 (Position.mk 0 0) 1).2) :=
  ⟨by intro h0; have := congrArg Position.x h0; norm_num at this,
   force_symmetry (Position.mk 0 0) (Position.mk 1 0) 1 1
     (by intro h0; have := congrArg Position.x h0; norm_num at this)⟩

/-- C1: one call to `apply_gravity` sets each body's velocity to its old
velocity plus the sum of the pairwise forces from all other bodies —
computed from the positions all bodies had at the start of the call —
divided by the body's mass and multiplied by `TIMESTEP`, and then sets its
position to its old position plus the new velocity times `TIMESTEP`. -/
theorem apply_gravity_euler_step (bodies : List Body) (i : ℕ) (hi : i < bodies.length) :
    ((apply_gravity bodies).getD i dummyBody).velocity.x
        = (bodies.getD i dummyBody).velocity.x
          + (total_force bodies i).1 / (bodies.getD i dummyBody).mass * TIMESTEP ∧
    ((apply_gravity bodies).getD i dummyBody).velocity.y
        = (bodies.getD i dummyBody).velocity.y
          + (total_force bodies i).2 / (bodies.getD i dummyBody).mass * TIMESTEP ∧
    ((apply_gravity bodies).getD i dummyBody).position.x
        = (bodies.getD i dummyBody).position.x
          + ((apply_gravity bodies).getD i dummyBody).velocity.x * TIMESTEP ∧
    ((apply_gravity bodies).getD i dummyBody).position.y
        = (bodies.getD i dummyBody).position.y
          + ((apply_gravity bodies).getD i dummyBody).velocity.y * TIMESTEP := by
  rw [apply_gravity_getD bodies i hi]
  exact ⟨rfl, rfl, rfl, rfl⟩

theorem apply_gravity_euler_step_witness :
    0 < [dummyBody].length ∧
    (((apply_gravity [dummyBody]).getD 0 dummyBody).velocity.x
        = ([dummyBody].getD 0 dummyBody).velocity.x
          + (total_force [dummyBody] 0).1 / ([dummyBody].getD 0 dummyBody).mass * TIMESTEP ∧
     ((apply_gravity [dummyBody]).getD 0 dummyBody).velocity.y
        = ([dummyBody].getD 0 dummyBody).velocity.y
          + (total_force [dummyBody] 0).2 / ([dummyBody].getD 0 dummyBody).mass * TIMESTEP ∧
     ((apply_gravity [dummyBody]).getD 0 dummyBody).position.x
        = ([dummyBody].getD 0 dummyBody).position.x
          + ((apply_gravity [dummyBody]).getD 0 dummyBody).velocity.x * TIMESTEP ∧
     ((apply_gravity [dummyBody]).getD 0 dummyBody).position.y
        = ([dummyBody].getD 0 dummyBody).position.y
          + ((apply_gravity [dummyBody]).getD 0 dummyBody).velocity.y * TIMESTEP) :=
  ⟨by norm_num, apply_gravity_euler_step [dummyBody] 0 (by norm_num)⟩

/-- C5: total momentum (the sum over bodies of mass times velocity, per
component) is exactly invariant across one `apply_gravity` call in the
real-number model, for any registry with nonzero masses and pairwise
non-coincident positions: masses are unchanged and the pairwise forces
cancel by antisymmetry. -/
theorem momentum_conserved (bodies : List Body)
    (hm : ∀ b ∈ bodies, b.mass ≠ 0)
    (hpos : ∀ i j, i < bodies.length → j < bodies.length → i ≠ j →
      (bodies.getD i dummyBody).position ≠ (bodies.getD j dummyBody).position) :
    total_momentum (apply_gravity bodies) = total_momentum bodies := by
  have hmass : ∀ j, j < bodies.length → (bodies.getD j dummyBody).mass ≠ 0 := by
    intro j hj
    apply hm
    rw [List.getD_eq_getElem?_getD, List.getElem?_eq_getElem hj, Option.getD_some]
    exact List.getElem_mem hj
  have hX : ((apply_gravity bodies).map fun b => b.mass * b.velocity.x).sum
      = (bodies.map fun b => b.mass * b.velocity.x).sum := by
    rw [map_sum_getD _ dummyBody, map_sum_getD _ dummyBody, apply_gravity_length]
    have hstep : ∀ j ∈ Finset.range bodies.length,
        (fun b => b.mass * b.velocity.x) ((apply_gravity bodies).getD j dummyBody)
          = (bodies.getD j dummyBody).mass * (bodies.getD j dummyBody).velocity.x
            + TIMESTEP * (total_force bodies j).1 := by
      intro j hj
      rw [Finset.mem_range] at hj
      rw [apply_gravity_getD bodies j hj]
      dsimp only
      simp only [new_velocity]
      have e : bodies.getD j dummyBody = bodies[j] := by
        rw [List.getD_eq_getElem?_getD, List.getElem?_eq_getElem hj, Option.getD_some]
      have hm' := hmass j hj
      rw [e] at hm'
      field_simp
      ring
    rw [Finset.sum_congr rfl hstep, Finset.sum_add_distrib, ← Finset.mul_sum,
        (total_force_sum_zero bodies hpos).1, mul_zero, add_zero]
  have hY : ((apply_gravity bodies).map fun b => b.mass * b.velocity.y).sum
      = (bodies.map fun b => b.mass * b.velocity.y).sum := by
    rw [map_sum_getD _ dummyBody, map_sum_getD _ dummyBody, apply_gravity_length]
    have hstep : ∀ j ∈ Finset.range bodies.length,
        (fun b => b.mass * b.velocity.y) ((apply_gravity bodies).getD j dummyBody)
          = (bodies.getD j dummyBody).mass * (bodies.getD j dummyBody).velocity.y
            + TIMESTEP * (total_force bodies j).2 := by
      intro j hj
      rw [Finset.mem_range] at hj
      rw [apply_gravity_getD bodies j hj]
      dsimp only
      simp only [new_velocity]
      have e : bodies.getD j dummyBody = bodies[j] := by
        rw [List.getD_eq_getElem?_getD, List.getElem?_eq_getElem hj, Option.getD_some]
      have hm' := hmass j hj
      rw [e] at hm'
      field_simp
      ring
    rw [Finset.sum_congr rfl hstep, Finset.sum_add_distrib, ← Finset.mul_sum,
        (total_force_sum_zero bodies hpos).2, mul_zero, add_zero]
  simp only [total_momentum, hX, hY]

theorem momentum_conserved_witness :
    (∀ b ∈ [Body.mk 1 (Position.mk 0 0) (Velocity.mk 0 0),
            Body.mk 1 (Position.mk 1 0) (Velocity.mk 0 0)], b.mass ≠ 0) ∧
    (∀ i j, i < [Body.mk 1 (Position.mk 0 0) (Velocity.mk 0 0),
                 Body.mk 1 (Position.mk 1 0) (Velocity.mk 0 0)].length →
        j < [Body.mk 1 (Position.mk 0 0) (Velocity.mk 0 0),
             Body.mk 1 (Position.mk 1 0) (Velocity.mk 0 0)].length → i ≠ j →
        ([Body.mk 1 (Position.mk 0 0) (Velocity.mk 0 0),
          Body.mk 1 (Position.mk 1 0) (Velocity.mk 0 0)].getD i dummyBody).position
          ≠ ([Body.mk 1 (Position.mk 0 0) (Velocity.mk 0 0),
              Body.mk 1 (Position.mk 1 0) (Velocity.mk 0 0)].getD j dummyBody).position) ∧
    total_momentum (apply_gravity [Body.mk 1 (Position.mk 0 0) (Velocity.mk 0 0),
                                   Body.mk 1 (Position.mk 1 0) (Velocity.mk 0 0)])
      = total_momentum [Body.mk 1 (Position.mk 0 0) (Velocity.mk 0 0),
                        Body.mk 1 (Position.mk 1 0) (Velocity.mk 0 0)] :=
  ⟨by intro b hb; fin_cases hb <;> norm_num,
   by
    intro i j hi hj hij
    simp only [List.length_cons, List.length_nil] at hi hj
    interval_cases i <;> interval_cases j <;>
      first
      | exact absurd rfl hij
      | norm_num [Position.ext_iff],
   momentum_conserved _
    (by intro b hb; fin_cases hb <;> norm_num)
    (by
      intro i j hi hj hij
      simp only [List.length_cons, List.length_nil] at hi hj
      interval_cases i <;> interval_cases j <;>
        first
        | exact absurd rfl hij
        | norm_num [Position.ext_iff])⟩

theorem calc_force_fp_coincident (px py m1 m2 : ℝ) (h1 : 0 < m1) (h2 : 0 < m2) :
    calculate_force_fp ⟨F64.finite px, F64.finite py⟩ (F64.finite m1)
      ⟨F64.finite px, F64.finite py⟩ (F64.finite m2) = (F64.inf, F64.nan) := by
  have hG : (0 : ℝ) < GRAVITY := by norm_num [GRAVITY]
  have hprod : (0 : ℝ) < GRAVITY * m1 * m2 := by positivity
  have e1 : ∀ r : ℝ, F64.sub (F64.finite r) (F64.finite r) = F64.finite 0 := by
    intro r; simp [F64.sub]
  have e2 : F64.powi2 (F64.finite 0) = F64.finite 0 := by
    simp [F64.powi2, F64.mul]
  have e3 : F64.add (F64.finite 0) (F64.finite 0) = F64.finite 0 := by
    simp [F64.add]
  have e4 : F64.sqrt (F64.finite 0) = F64.finite 0 := by
    norm_num [F64.sqrt]
  have e5 : F64.mul (F64.mul (F64.finite GRAVITY) (F64.finite m1)) (F64.finite m2)
      = F64.finite (GRAVITY * m1 * m2) := by
    simp [F64.mul]
  have e6 : F64.div (F64.finite (GRAVITY * m1 * m2)) (F64.finite 0) = F64.inf := by
    simp [F64.div, hprod]
  have e7 : F64.atan2 (F64.finite 0) (F64.finite 0) = F64.finite 0 := by
    have h0 : ((⟨0, 0⟩ : ℂ)) = 0 := by
      apply Complex.ext <;> simp
    simp only [F64.atan2, atan2, h0, Complex.arg_zero]
  have e8 : F64.cos (F64.finite 0) = F64.finite 1 := by
    simp [F64.cos]
  have e9 : F64.sin (F64.finite 0) = F64.finite 0 := by
    simp [F64.sin]
  have e10 : F64.mul (F64.finite 1) F64.inf = F64.inf := by
    norm_num [F64.mul]
  have e11 : F64.mul (F64.finite 0) F64.inf = F64.nan := by
    norm_num [F64.mul]
  simp only [calculate_force_fp]
  simp only [e1, e2, e3, e4, e5, e6, e7, e8, e9, e10, e11]

theorem apply_gravity_fp_coincident (px py v1x v1y v2x v2y m1 m2 : ℝ)
    (h1 : 0 < m1) (h2 : 0 < m2) :
    apply_gravity_fp
        [⟨F64.finite m1, ⟨F64.finite px, F64.finite py⟩, ⟨F64.finite v1x, F64.finite v1y⟩⟩,
         ⟨F64.finite m2, ⟨F64.finite px, F64.finite py⟩, ⟨F64.finite v2x, F64.finite v2y⟩⟩]
      = [⟨F64.finite m1, ⟨F64.inf, F64.nan⟩, ⟨F64.inf, F64.nan⟩⟩,
         ⟨F64.finite m2, ⟨F64.inf, F64.nan⟩, ⟨F64.inf, F64.nan⟩⟩] := by
  have hc12 := calc_force_fp_coincident px py m1 m2 h1 h2
  have hc21 := calc_force_fp_coincident px py m2 m1 h2 h1
  have eadd_inf : F64.add (F64.finite 0) F64.inf = F64.inf := by simp [F64.add]
  have eadd_nan : F64.add (F64.finite 0) F64.nan = F64.nan := by simp [F64.add]
  have ediv1 : F64.div F64.inf (F64.finite m1) = F64.inf := by
    simp [F64.div, le_of_lt h1]
  have ediv2 : F64.div F64.inf (F64.finite m2) = F64.inf := by
    simp [F64.div, le_of_lt h2]
  have edivn1 : F64.div F64.nan (F64.finite m1) = F64.nan := by simp [F64.div]
  have edivn2 : F64.div F64.nan (F64.finite m2) = F64.nan := by simp [F64.div]
  have emulT : F64.mul F64.inf (F64.finite TIMESTEP) = F64.inf := by
    norm_num [F64.mul, TIMESTEP]
  have emulTn : F64.mul F64.nan (F64.finite TIMESTEP) = F64.nan := by simp [F64.mul]
  have eaddv : ∀ r : ℝ, F64.add (F64.finite r) F64.inf = F64.inf := by
    intro r; simp [F64.add]
  have eaddvn : ∀ r : ℝ, F64.add (F64.finite r) F64.nan = F64.nan := by
    intro r; simp [F64.add]
  simp [apply_gravity_fp, List.enum, List.enumFrom, hc12, hc21, eadd_inf, eadd_nan,
    ediv1, ediv2, edivn1, edivn2, emulT, emulTn, eaddv, eaddvn]

/-- C6: in the `F64` model, two bodies at coincident positions drive
`calculate_force` through an unguarded division by zero: the returned force
is non-finite in both components (`+inf` in x, NaN in y, since
`atan2(0,0) = 0` makes `cos = 1` and `sin = 0`, and `0 * inf` is NaN), and
`apply_gravity` propagates the non-finite values into both bodies'
velocities and positions with no clamp or guard on any path. -/
theorem coincident_bodies_degenerate (px py v1x v1y v2x v2y m1 m2 : ℝ)
    (h1 : 0 < m1) (h2 : 0 < m2) :
    ((calculate_force_fp ⟨F64.finite px, F64.finite py⟩ (F64.finite m1)
        ⟨F64.finite px, F64.finite py⟩ (F64.finite m2)).1.isFinite = false ∧
     (calculate_force_fp ⟨F64.finite px, F64.finite py⟩ (F64.finite m1)
        ⟨F64.finite px, F64.finite py⟩ (F64.finite m2)).2.isFinite = false) ∧
    ∀ b ∈ apply_gravity_fp
        [⟨F64.finite m1, ⟨F64.finite px, F64.finite py⟩, ⟨F64.finite v1x, F64.finite v1y⟩⟩,
         ⟨F64.finite m2, ⟨F64.finite px, F64.finite py⟩, ⟨F64.finite v2x, F64.finite v2y⟩⟩],
      b.velocity.x.isFinite = false ∧ b.velocity.y.isFinite = false ∧
      b.position.x.isFinite = false ∧ b.position.y.isFinite = false := by
  constructor
  · rw [calc_force_fp_coincident px py m1 m2 h1 h2]
    exact ⟨rfl, rfl⟩
  · rw [apply_gravity_fp_coincident px py v1x v1y v2x v2y m1 m2 h1 h2]
    intro b hb
    simp only [List.mem_cons, List.not_mem_nil, or_false] at hb
    rcases hb with h | h <;> subst h <;> exact ⟨rfl, rfl, rfl, rfl⟩

theorem coincident_bodies_degenerate_witness :
    (0 : ℝ) < 1 ∧
    (((calculate_force_fp ⟨F64.finite 0, F64.finite 0⟩ (F64.finite 1)
        ⟨F64.finite 0, F64.finite 0⟩ (F64.finite 1)).1.isFinite = false ∧
      (calculate_force_fp ⟨F64.finite 0, F64.finite 0⟩ (F64.finite 1)
        ⟨F64.finite 0, F64.finite 0⟩ (F64.finite 1)).2.isFinite = false) ∧
     ∀ b ∈ apply_gravity_fp
        [⟨F64.finite 1, ⟨F64.finite 0, F64.finite 0⟩, ⟨F64.finite 0, F64.finite 0⟩⟩,
         ⟨F64.finite 1, ⟨F64.finite 0, F64.finite 0⟩, ⟨F64.finite 0, F64.finite 0⟩⟩],
      b.velocity.x.isFinite = false ∧ b.velocity.y.isFinite = false ∧
      b.position.x.isFinite = false ∧ b.position.y.isFinite = false) :=
  ⟨by norm_num,
   coincident_bodies_degenerate 0 0 0 0 0 0 1 1 (by norm_num) (by norm_num)⟩

end Planets

end
